import Mathlib

/-!
# gota client: frame codec, connection handler, connection manager, tunnels

A shallow embedding of `client/client.go` (and the codec of `utils/meta.go`).

Conventions of the embedding
* A Go `[]byte` is a `List Nat` whose elements are byte values.
* A `uint16` / `uint32` is a `Nat`; every place where the Go code converts or
  increments such a value carries the explicit reduction modulo `2^16` / `2^32`.
* A goroutine loop that consumes a channel or a socket is a function of the
  finite list of values it has received so far.
* A Go panic (or a nil dereference) is the `none` / `panicked` outcome.
-/

namespace Gota

/-! ## Constants (client.go 464-515) -/

/-- The constant `MaxDataLength` of client.go. -/
def MaxDataLength : Nat := 65536

/-- Modulus of `uint16`. -/
def u16 : Nat := 65536

/-- Modulus of `uint32`. -/
def u32 : Nat := 4294967296

def TMHeartBeatSeq : Nat := 0
def TMCreateConnSeq : Nat := 1
def TMCreateConnOKSeq : Nat := 2
def TMCloseConnSeq : Nat := 3
def TMCloseConnOKSeq : Nat := 4
def TMCloseTunnelSeq : Nat := 5

def TMConnBiuniqueMode : Nat := 0
def TMConnOverlapMode : Nat := 1
def TMConnMultiBiuniqueMode : Nat := 2
def TMConnMultiOverlapMode : Nat := 3

/-! ## Frames and the codec (client.go 517-576, utils/meta.go 64-92) -/

/-- The struct `dataFrame`: `ConnId`, `Length` are `uint16`, `SeqNum` is `uint32`. -/
structure dataFrame where
  ConnId : Nat
  Length : Nat
  SeqNum : Nat
  data : List Nat
deriving DecidableEq, Repr

/-- The field ranges the Go types of `dataFrame` impose. -/
def dataFrame.inRange (f : dataFrame) : Prop :=
  f.ConnId < u16 ∧ f.Length < u16 ∧ f.SeqNum < u32

instance (f : dataFrame) : Decidable f.inRange := by
  unfold dataFrame.inRange; infer_instance

/-- Go `binary.LittleEndian.PutUint16`: `b[0] = byte(v)`, `b[1] = byte(v >> 8)`. -/
def PutUint16 (v : Nat) : List Nat :=
  [v % 256, v / 256 % 256]

/-- Go `binary.LittleEndian.PutUint32`: the four bytes of `v`, lowest first. -/
def PutUint32 (v : Nat) : List Nat :=
  [v % 256, v / 256 % 256, v / 65536 % 256, v / 16777216 % 256]

/-- Go `binary.LittleEndian.Uint16`: `b[0] | b[1]<<8`; panics on fewer than 2 bytes. -/
def Uint16 : List Nat → Option Nat
  | b0 :: b1 :: _ => some (b0 % 256 + b1 % 256 * 256)
  | _ => none

/-- Go `binary.LittleEndian.Uint32`: four bytes, lowest first; panics on fewer than 4. -/
def Uint32 : List Nat → Option Nat
  | b0 :: b1 :: b2 :: b3 :: _ =>
    some (b0 % 256 + b1 % 256 * 256 + b2 % 256 * 65536 + b3 % 256 * 16777216)
  | _ => none

/-- The function `wrapDataFrame`: a buffer receiving the two bytes of `ConnId`,
the two bytes of `Length`, the four bytes of `SeqNum`, then `data`. -/
def wrapDataFrame (data : dataFrame) : List Nat :=
  let buf : List Nat := []
  let cid := PutUint16 data.ConnId
  let buf := buf ++ cid
  let lens := PutUint16 data.Length
  let buf := buf ++ lens
  let seq := PutUint32 data.SeqNum
  let buf := buf ++ seq
  buf ++ data.data

/-- The function `unWrapDataFrame`: reads `h[:2]`, `h[2:4]` and `h[4:]`; the
returned frame has no payload. `none` is the slice-bounds panic. -/
def unWrapDataFrame (h : List Nat) : Option dataFrame :=
  if h.length < 4 then none
  else
    match Uint16 (h.take 2), Uint16 ((h.drop 2).take 2), Uint32 (h.drop 4) with
    | some cid, some lens, some seq =>
      some { ConnId := cid, Length := lens, SeqNum := seq, data := [] }
    | _, _, _ => none

/-- The struct `GotaFrame` of utils/meta.go (same fields as `dataFrame`). -/
structure GotaFrame where
  ConnId : Nat
  SeqNum : Nat
  Length : Nat
  Data : List Nat
deriving DecidableEq, Repr

/-- The function `WrapDataFrame` of utils/meta.go. -/
def WrapDataFrame (data : GotaFrame) : List Nat :=
  let buf : List Nat := []
  let buf := buf ++ PutUint16 data.ConnId
  let buf := buf ++ PutUint16 data.Length
  let buf := buf ++ PutUint32 data.SeqNum
  buf ++ data.Data

/-- The function `UnwrapDataFrame` of utils/meta.go. -/
def UnwrapDataFrame (h : List Nat) : Option GotaFrame :=
  if h.length < 4 then none
  else
    match Uint16 (h.take 2), Uint16 ((h.drop 2).take 2), Uint32 (h.drop 4) with
    | some cid, some lens, some seq =>
      some { ConnId := cid, Length := lens, SeqNum := seq, Data := [] }
    | _, _, _ => none

/-- The precomputed `TMHeartBeatBytes` of `init`. -/
def TMHeartBeatBytes : List Nat :=
  wrapDataFrame { ConnId := 0, Length := 0, SeqNum := TMHeartBeatSeq, data := [] }

/-- The precomputed `TMCloseTunnelBytes` of `init`. -/
def TMCloseTunnelBytes : List Nat :=
  wrapDataFrame { ConnId := 0, Length := 0, SeqNum := TMCloseTunnelSeq, data := [] }

/-! ## Go maps, I/O results, loop outcomes -/

/-- Go map lookup `v, ok := m[k]` on an association list. -/
def mapGet {α : Type} (m : List (Nat × α)) (k : Nat) : Option α :=
  (m.find? (fun p => p.1 == k)).map (fun p => p.2)

/-- Go `delete(m, k)`. -/
def mapDelete {α : Type} (m : List (Nat × α)) (k : Nat) : List (Nat × α) :=
  m.filter (fun p => p.1 != k)

/-- Go map assignment `m[k] = v`. -/
def mapSet {α : Type} (m : List (Nat × α)) (k : Nat) (v : α) : List (Nat × α) :=
  (k, v) :: mapDelete m k

/-- The `error` value of a socket call: `nil`, `io.EOF`, or any other error. -/
inductive IOErr where
  | nil
  | EOF
  | other
deriving DecidableEq, Repr

/-- How far a goroutine loop got on the inputs given: still waiting for the
next input, left by `break`/`return`, or left by a panic (recovered by the
deferred function where there is one). -/
inductive LoopExit where
  | blocked
  | returned
  | panicked
deriving DecidableEq, Repr

/-- The result `n, err` of one `conn.Read(buf)`: `data` holds the `n` bytes read. -/
structure ReadResult where
  data : List Nat
  err : IOErr
deriving DecidableEq, Repr

/-! ## ConnHandler.start (client.go 107-126) -/

/-- The observable actions of `ConnHandler.start`, in program order. -/
inductive StartAction where
  | sendX2c (f : dataFrame)
  | logError
  | closeConn (cid : Nat)
  | goX2c
  | goC2x
deriving DecidableEq, Repr

/-- The method `ConnHandler.start` for handler `cid`, given the first frame
`res` received on its inbound queue. The send on `connCloseChannel` is
commented out in the source, so the failure branch only logs. -/
def ConnHandler.start (cid : Nat) (res : dataFrame) : List StartAction :=
  let req : dataFrame := { ConnId := cid, Length := 0, SeqNum := TMCreateConnSeq % u32, data := [] }
  [StartAction.sendX2c req]
    ++ (if res.SeqNum ≠ TMCreateConnOKSeq then [StartAction.logError] else [])
    ++ [StartAction.goX2c, StartAction.goC2x]

/-! ## ConnHandler.x2c (client.go 128-161) -/

/-- What `x2c` has done: the frames sent on `x2cChannel`, in order, and how the
loop ended. -/
structure X2cResult where
  emitted : List dataFrame
  exit : LoopExit
deriving DecidableEq, Repr

/-- The loop of `ConnHandler.x2c` with current `seq`, over the results of the
successive `ch.conn.Read(data)` calls. -/
def ConnHandler.x2cLoop (cid : Nat) : Nat → List ReadResult → X2cResult
  | _, [] => { emitted := [], exit := LoopExit.blocked }
  | seq, r :: rs =>
    let n := r.data.length
    let df : dataFrame := { ConnId := cid, SeqNum := seq, Length := n % u16, data := r.data }
    let out : List dataFrame := if n > 0 then [df] else []
    let seq1 : Nat := if n > 0 then (seq + 1) % u32 else seq
    if r.err = IOErr.EOF then { emitted := out, exit := LoopExit.returned }
    else if r.err ≠ IOErr.nil then { emitted := out, exit := LoopExit.panicked }
    else
      let rest := ConnHandler.x2cLoop cid seq1 rs
      { emitted := out ++ rest.emitted, exit := rest.exit }

/-- The method `ConnHandler.x2c`: the loop started with `seq = 1`. -/
def ConnHandler.x2c (cid : Nat) (reads : List ReadResult) : X2cResult :=
  ConnHandler.x2cLoop cid 1 reads

/-- The deferred function of `x2c` sends `ch.cid` on `connCloseChannel` once the
loop is left, by `break` or by panic. -/
def X2cResult.closeRequested (r : X2cResult) : Bool :=
  r.exit != LoopExit.blocked

/-! ## ConnHandler.c2x (client.go 163-211) -/

/-- The state of `ConnHandler.c2x`: the local `seq`, the local map `cache`,
the log of `ch.conn.Write` calls (the value of `seq` at the call and the bytes
passed), and whether the loop is still running. -/
structure C2xState where
  seq : Nat
  cache : List (Nat × List Nat)
  writes : List (Nat × List Nat)
  exit : LoopExit
deriving DecidableEq, Repr

/-- The state `c2x` starts in: `seq = 1`, empty `cache`. -/
def C2xState.init : C2xState :=
  { seq := 1, cache := [], writes := [], exit := LoopExit.blocked }

/-- The inner `for` loop of `c2x` (lines 190-204). `w i` is the error returned
by the `i`-th `Write` call on the user socket. Every iteration that does not
leave the loop deletes one key of `cache`, so `fuel = len(cache) + 1` covers
every run. -/
def ConnHandler.c2xDrain (w : Nat → IOErr) : Nat → C2xState → C2xState
  | 0, st => st
  | fuel + 1, st =>
    match mapGet st.cache st.seq with
    | some data =>
      let st1 : C2xState := { st with writes := st.writes ++ [(st.seq, data)] }
      match w st.writes.length with
      | IOErr.other => { st1 with exit := LoopExit.panicked }
      | IOErr.EOF => { st1 with exit := LoopExit.returned }
      | IOErr.nil =>
        ConnHandler.c2xDrain w fuel
          { st1 with cache := mapDelete st.cache st.seq, seq := (st.seq + 1) % u32 }
    | none => st

/-- One iteration of the `for d := range ch.c2xChannel` loop of `c2x`. -/
def ConnHandler.c2xStep (w : Nat → IOErr) (st : C2xState) (d : dataFrame) : C2xState :=
  if st.exit ≠ LoopExit.blocked then st
  else if d.SeqNum = st.seq then
    let st1 : C2xState := { st with writes := st.writes ++ [(st.seq, d.data)] }
    match w st.writes.length with
    | IOErr.other => { st1 with exit := LoopExit.panicked }
    | IOErr.EOF => { st1 with exit := LoopExit.returned }
    | IOErr.nil =>
      let st2 : C2xState := { st1 with seq := (st.seq + 1) % u32 }
      if st2.cache.length = 0 then st2
      else ConnHandler.c2xDrain w (st2.cache.length + 1) st2
  else if d.SeqNum > st.seq then
    { st with cache := mapSet st.cache d.SeqNum d.data }
  else st

/-- The method `ConnHandler.c2x` over the frames received on `ch.c2xChannel`. -/
def ConnHandler.c2x (w : Nat → IOErr) (frames : List dataFrame) : C2xState :=
  frames.foldl (ConnHandler.c2xStep w) C2xState.init

/-- The bytes the user socket has received when every `Write` succeeded. -/
def C2xState.written (st : C2xState) : List Nat :=
  (st.writes.map (fun p => p.2)).flatten

/-- The payload of the first arrival carrying sequence number `s`. -/
def payloadOf (frames : List dataFrame) (s : Nat) : List Nat :=
  match frames.find? (fun f => f.SeqNum == s) with
  | some f => f.data
  | none => []

/-! ## ConnManager (client.go 20-97) -/

/-- The struct `ConnManager`: the counter `nextConnID` (`uint16`) and the map
`connectionPool`, a handler being identified by its user socket. -/
structure ConnManager where
  nextConnID : Nat
  connectionPool : List (Nat × Nat)
deriving DecidableEq, Repr

/-- One iteration of the loop of `ConnManager.closeConn` for the request `cid`;
`none` is the nil dereference of `c.connectionPool[cid].conn` on an absent cid. -/
def ConnManager.closeConn (c : ConnManager) (cid : Nat) : Option ConnManager :=
  match mapGet c.connectionPool cid with
  | none => none
  | some _ => some { c with connectionPool := mapDelete c.connectionPool cid }

/-- The address pair of a spawned `TunnelWorker`. -/
structure TunnelWorker where
  localAddr : String
  remoteAddr : String
deriving DecidableEq, Repr

/-- The method `TunnelManager.start`: the workers spawned, in order; `none` is
the panic on an unknown mode. The `switch` only logs the mode. -/
def TunnelManager.start (mode : Nat) (localIPs remoteAddrs : List String) :
    Option (List TunnelWorker) :=
  if mode = TMConnBiuniqueMode ∨ mode = TMConnOverlapMode ∨ mode = TMConnMultiBiuniqueMode
      ∨ mode = TMConnMultiOverlapMode then
    some (localIPs.flatMap fun lAddr =>
      remoteAddrs.map fun rAddr => { localAddr := lAddr, remoteAddr := rAddr })
  else none

/-! ## TunnelWorker.s2c (client.go 392-462) -/

/-- One `conn.Read` on the tunnel socket, with the value of
`tw.cancelFlag == -1` seen by the check that follows a payload read. -/
structure TunnelRead where
  data : List Nat
  err : IOErr
  cancelFlag : Bool
deriving DecidableEq, Repr

/-- What the header part of one iteration of `s2c` decides. -/
inductive HeaderStep where
  | skip
  | stop (e : LoopExit)
  | forward (df : dataFrame)
  | payload (df : dataFrame)
deriving DecidableEq, Repr

/-- Lines 403-442 of `s2c`: the header read `r` into the zeroed 8-byte buffer
`header`, the decode, and the `switch` on the signal of a zero-length frame. -/
def TunnelWorker.s2cHeader (r : TunnelRead) : HeaderStep :=
  let header := (r.data ++ List.replicate 8 0).take 8
  let n := r.data.length
  if n = 0 ∧ r.err = IOErr.nil then HeaderStep.skip
  else if r.err = IOErr.EOF then HeaderStep.stop LoopExit.returned
  else
    match unWrapDataFrame header with
    | none => HeaderStep.stop LoopExit.panicked
    | some df =>
      if df.Length = 0 then
        if df.SeqNum = TMHeartBeatSeq then HeaderStep.skip
        else if df.SeqNum = TMCloseConnSeq then HeaderStep.payload df
        else if df.SeqNum = TMCreateConnSeq then HeaderStep.payload df
        else if df.SeqNum = TMCreateConnOKSeq then HeaderStep.forward df
        else if df.SeqNum = TMCloseTunnelSeq then HeaderStep.payload df
        else HeaderStep.stop LoopExit.panicked
      else HeaderStep.payload df

/-- What `s2c` has done: the frames sent on `c2xChannel`, in order, and how the
loop ended. -/
structure S2cResult where
  forwarded : List dataFrame
  exit : LoopExit
deriving DecidableEq, Repr

/-- The loop of `TunnelWorker.s2c` over the results of the successive
`conn.Read` calls (lines 444-460 are the payload part). -/
def TunnelWorker.s2c : List TunnelRead → S2cResult
  | [] => { forwarded := [], exit := LoopExit.blocked }
  | r :: rs =>
    match TunnelWorker.s2cHeader r with
    | HeaderStep.skip => TunnelWorker.s2c rs
    | HeaderStep.stop e => { forwarded := [], exit := e }
    | HeaderStep.forward df =>
      let rest := TunnelWorker.s2c rs
      { forwarded := df :: rest.forwarded, exit := rest.exit }
    | HeaderStep.payload df =>
      match rs with
      | [] => { forwarded := [], exit := LoopExit.blocked }
      | p :: rs1 =>
        let n := p.data.length
        if (p.err ≠ IOErr.nil ∧ p.err ≠ IOErr.EOF) ∨ n ≠ df.Length then
          { forwarded := [], exit := LoopExit.returned }
        else
          let df1 : dataFrame := { df with data := p.data }
          if p.cancelFlag ∨ p.err = IOErr.EOF then
            { forwarded := [df1], exit := LoopExit.returned }
          else
            let rest := TunnelWorker.s2c rs1
            { forwarded := df1 :: rest.forwarded, exit := rest.exit }

/-- The 8 header bytes of a frame `{ConnId, Length, SeqNum}` as read off the wire. -/
def headerBytes (cid len seq : Nat) : List Nat :=
  wrapDataFrame { ConnId := cid, Length := len, SeqNum := seq, data := [] }

/-! ## Invariants used in the proofs -/

/-- The invariant of `c2x` inside the inner loop when every write succeeds and
the arrivals `P` so far carry distinct sequence numbers, none equal to `k + 1`:
the writes so far are the arrivals numbered `1 .. seq - 1` in order, and
`cache` holds exactly the arrivals numbered `seq` or more. -/
def drainOrderInv (k : Nat) (P : List dataFrame) (st : C2xState) : Prop :=
  st.exit = LoopExit.blocked ∧ 1 ≤ st.seq ∧ st.seq ≤ k + 1 ∧
  st.writes.map Prod.fst = List.range' 1 (st.seq - 1) ∧
  (∀ p ∈ st.writes, ∃ f ∈ P, f.SeqNum = p.1 ∧ f.data = p.2) ∧
  (∀ s v, mapGet st.cache s = some v → st.seq ≤ s ∧ ∃ f ∈ P, f.SeqNum = s ∧ f.data = v) ∧
  (∀ f ∈ P, st.seq ≤ f.SeqNum → mapGet st.cache f.SeqNum = some f.data)

/-- The invariant of `c2x` between two frames: as `drainOrderInv`, with `cache`
holding exactly the arrivals numbered above `seq`, and `seq` not yet arrived. -/
def orderInv (k : Nat) (P : List dataFrame) (st : C2xState) : Prop :=
  st.exit = LoopExit.blocked ∧ 1 ≤ st.seq ∧ st.seq ≤ k + 1 ∧
  st.writes.map Prod.fst = List.range' 1 (st.seq - 1) ∧
  (∀ p ∈ st.writes, ∃ f ∈ P, f.SeqNum = p.1 ∧ f.data = p.2) ∧
  (∀ s v, mapGet st.cache s = some v → st.seq < s ∧ ∃ f ∈ P, f.SeqNum = s ∧ f.data = v) ∧
  (∀ f ∈ P, st.seq < f.SeqNum → mapGet st.cache f.SeqNum = some f.data) ∧
  (∀ f ∈ P, f.SeqNum ≠ st.seq)

/-! ## Long arrival sequences -/

/-- A one-byte data frame for connection 7 with sequence number `i`. -/
def unitFrame (i : Nat) : dataFrame :=
  { ConnId := 7, Length := 1, SeqNum := i, data := [1] }

/-- The arrivals with sequence numbers 1, 2, ..., `2^32 - 1` in order, followed
by a data frame with sequence number 0. -/
def wrapArrivals : List dataFrame :=
  (List.range' 1 4294967295).map unitFrame
    ++ [{ ConnId := 7, Length := 1, SeqNum := 0, data := [0] }]

theorem wrapDataFrame_eq (f : dataFrame) :
    wrapDataFrame f
      = f.ConnId % 256 :: f.ConnId / 256 % 256 :: f.Length % 256 :: f.Length / 256 % 256
        :: f.SeqNum % 256 :: f.SeqNum / 256 % 256 :: f.SeqNum / 65536 % 256
        :: f.SeqNum / 16777216 % 256 :: f.data := by
  simp [wrapDataFrame, PutUint16, PutUint32]

theorem Uint16_PutUint16 (v : Nat) (hv : v < u16) (rest : List Nat) :
    Uint16 (PutUint16 v ++ rest) = some v := by
  simp only [PutUint16, Uint16, List.cons_append, List.nil_append, Option.some.injEq]
  unfold u16 at hv
  omega

theorem Uint32_PutUint32 (v : Nat) (hv : v < u32) (rest : List Nat) :
    Uint32 (PutUint32 v ++ rest) = some v := by
  simp only [PutUint32, Uint32, List.cons_append, List.nil_append, Option.some.injEq]
  unfold u32 at hv
  omega

/-- C1. Codec round trip: for a frame whose fields are in the range of their Go
types, whose payload has at most `MaxDataLength` bytes and whose `Length` is the
payload's byte count, `unWrapDataFrame` on the first 8 bytes of
`wrapDataFrame f` returns the `ConnId`, `Length` and `SeqNum` of `f`, and the
`Length` bytes after those 8 bytes are the payload of `f`. -/
theorem wrap_unwrap_roundtrip (f : dataFrame) (hr : f.inRange)
    (_hmax : f.data.length ≤ MaxDataLength) (hlen : f.Length = f.data.length) :
    unWrapDataFrame ((wrapDataFrame f).take 8)
        = some { ConnId := f.ConnId, Length := f.Length, SeqNum := f.SeqNum, data := [] }
      ∧ ((wrapDataFrame f).drop 8).take f.Length = f.data := by
  obtain ⟨hc, hl, hs⟩ := hr
  unfold u16 at hc hl
  unfold u32 at hs
  refine ⟨?_, ?_⟩
  · rw [wrapDataFrame_eq]
    simp only [unWrapDataFrame, List.take_succ_cons, List.take_zero, List.drop_succ_cons,
      List.drop_zero, List.length_cons, List.length_nil, Uint16, Uint32]
    simp only [Nat.mod_mod]
    have e1 : f.ConnId % 256 + f.ConnId / 256 % 256 * 256 = f.ConnId := by omega
    have e2 : f.Length % 256 + f.Length / 256 % 256 * 256 = f.Length := by omega
    have e3 : f.SeqNum % 256 + f.SeqNum / 256 % 256 * 256 + f.SeqNum / 65536 % 256 * 65536
        + f.SeqNum / 16777216 % 256 * 16777216 = f.SeqNum := by omega
    simp [e1, e2, e3]
  · rw [wrapDataFrame_eq]
    simp [hlen]

/-- Witness of `wrap_unwrap_roundtrip`: the frame `{cid=1, seq=1, len=5, "hello"}`. -/
theorem wrap_unwrap_roundtrip_witness :
    unWrapDataFrame ((wrapDataFrame ⟨1, 5, 1, [104, 101, 108, 108, 111]⟩).take 8)
        = some { ConnId := 1, Length := 5, SeqNum := 1, data := [] }
      ∧ ((wrapDataFrame ⟨1, 5, 1, [104, 101, 108, 108, 111]⟩).drop 8).take 5
        = [104, 101, 108, 108, 111] :=
  wrap_unwrap_roundtrip ⟨1, 5, 1, [104, 101, 108, 108, 111]⟩ (by decide) (by decide) (by decide)

/-- The codec of utils/meta.go round-trips in the same way. -/
theorem Wrap_Unwrap_roundtrip (g : GotaFrame) (hc : g.ConnId < u16) (hl : g.Length < u16)
    (hs : g.SeqNum < u32) (hlen : g.Length = g.Data.length) :
    UnwrapDataFrame ((WrapDataFrame g).take 8)
        = some { ConnId := g.ConnId, Length := g.Length, SeqNum := g.SeqNum, Data := [] }
      ∧ ((WrapDataFrame g).drop 8).take g.Length = g.Data := by
  unfold u16 at hc hl
  unfold u32 at hs
  have e1 : g.ConnId % 256 + g.ConnId / 256 % 256 * 256 = g.ConnId := by omega
  have e2 : g.Length % 256 + g.Length / 256 % 256 * 256 = g.Length := by omega
  have e3 : g.SeqNum % 256 + g.SeqNum / 256 % 256 * 256 + g.SeqNum / 65536 % 256 * 65536
      + g.SeqNum / 16777216 % 256 * 16777216 = g.SeqNum := by omega
  refine ⟨?_, ?_⟩
  · simp [UnwrapDataFrame, WrapDataFrame, PutUint16, PutUint32, Uint16, Uint32, e1, e2, e3]
  · simp [WrapDataFrame, PutUint16, PutUint32, hlen]

/-! ## C2: wire layout -/

theorem wrapDataFrame_length (f : dataFrame) :
    (wrapDataFrame f).length = 8 + f.data.length := by
  rw [wrapDataFrame_eq]
  simp only [List.length_cons]
  omega

/-- C2 (as amended). Wire layout: for every frame, `wrapDataFrame f` is the two
bytes of `ConnId`, the two bytes of `Length`, the four bytes of `SeqNum` (each
lowest byte first) followed by the payload; the header is exactly 8 bytes and
the encoding has exactly 8 plus the payload's byte count bytes. That is
`8 + f.Length` exactly when `Length` is the payload's byte count. -/
theorem wrapDataFrame_layout (f : dataFrame) :
    wrapDataFrame f
        = [f.ConnId % 256, f.ConnId / 256 % 256] ++ [f.Length % 256, f.Length / 256 % 256]
          ++ [f.SeqNum % 256, f.SeqNum / 256 % 256, f.SeqNum / 65536 % 256,
              f.SeqNum / 16777216 % 256] ++ f.data
      ∧ (wrapDataFrame f).drop 8 = f.data
      ∧ ((wrapDataFrame f).take 8).length = 8
      ∧ (wrapDataFrame f).length = 8 + f.data.length
      ∧ ((wrapDataFrame f).length = 8 + f.Length ↔ f.Length = f.data.length) := by
  rw [wrapDataFrame_eq]
  refine ⟨by simp, by simp, by simp, by simp only [List.length_cons]; omega, ?_⟩
  simp only [List.length_cons]
  constructor <;> intro h <;> omega

/-- C2, counterexample: the frame `x2c` builds for a read of 65536 bytes has
`Length = 0` and a 65536-byte payload; its encoding has 65544 bytes, not
`8 + Length = 8`. -/
theorem wrapDataFrame_length_counterexample :
    (wrapDataFrame { ConnId := 1, Length := 0, SeqNum := 1, data := List.replicate 65536 0 }).length
        = 65544
      ∧ (wrapDataFrame
          { ConnId := 1, Length := 0, SeqNum := 1, data := List.replicate 65536 0 }).length
        ≠ 8 + (dataFrame.mk 1 0 1 (List.replicate 65536 0)).Length := by
  have hlen : (wrapDataFrame
      { ConnId := 1, Length := 0, SeqNum := 1, data := List.replicate 65536 0 }).length
        = 8 + 65536 := by
    rw [wrapDataFrame_length]
    exact congrArg (fun n => 8 + n) (List.length_replicate 65536 0)
  rw [hlen]
  exact ⟨by norm_num, by norm_num⟩

/-! ## C7: the create handshake -/

/-- C7, the code at the failing input: handler 3 receives `CLOSE_CONN{cid=3}`
as its first inbound frame. `start` sends the request, logs the failure, and
starts both loops; no close of cid 3 is requested. -/
theorem start_on_close_conn :
    ConnHandler.start 3 { ConnId := 3, Length := 0, SeqNum := TMCloseConnSeq, data := [] }
        = [StartAction.sendX2c { ConnId := 3, Length := 0, SeqNum := 1, data := [] },
           StartAction.logError, StartAction.goX2c, StartAction.goC2x]
      ∧ StartAction.closeConn 3 ∉
          ConnHandler.start 3 { ConnId := 3, Length := 0, SeqNum := TMCloseConnSeq, data := [] } := by
  decide

/-- Whatever the first inbound frame is, `start` starts both loops and never
requests a close. -/
theorem start_always_starts_loops (cid : Nat) (res : dataFrame) :
    StartAction.goX2c ∈ ConnHandler.start cid res
      ∧ StartAction.goC2x ∈ ConnHandler.start cid res
      ∧ ∀ c, StartAction.closeConn c ∉ ConnHandler.start cid res := by
  unfold ConnHandler.start
  by_cases h : res.SeqNum = TMCreateConnOKSeq <;> simp [h]

/-! ## C8: worker spawning -/

/-- C8, the code at the failing input: in Biunique mode with two local and two
remote addresses, `start` spawns four workers, among them the pairs
`(L[0], R[1])` and `(L[1], R[0])`. -/
theorem TunnelManager_start_biunique_two :
    TunnelManager.start TMConnBiuniqueMode ["10.0.0.1", "10.0.0.2"] ["s1:8080", "s2:8080"]
      = some [⟨"10.0.0.1", "s1:8080"⟩, ⟨"10.0.0.1", "s2:8080"⟩,
              ⟨"10.0.0.2", "s1:8080"⟩, ⟨"10.0.0.2", "s2:8080"⟩] := by
  rfl

/-- In each of the four modes `start` spawns one worker per element of the
product of the two address lists. -/
theorem TunnelManager_start_count (mode : Nat) (L R : List String) (ws : List TunnelWorker)
    (h : TunnelManager.start mode L R = some ws) : ws.length = L.length * R.length := by
  unfold TunnelManager.start at h
  split at h
  · injection h with h
    subst h
    induction L with
    | nil => simp
    | cons l L ih => simp [List.flatMap_cons, ih, Nat.add_mul, Nat.add_comm]
  · exact absurd h (by simp)

/-! ## C9: the Length field on the outbound path -/

theorem x2cLoop_single (cid seq : Nat) (data : List Nat) (h : data ≠ []) :
    (ConnHandler.x2cLoop cid seq [⟨data, IOErr.nil⟩]).emitted
      = [{ ConnId := cid, Length := data.length % u16, SeqNum := seq, data := data }] := by
  have hpos : data.length > 0 := List.length_pos.mpr h
  simp [ConnHandler.x2cLoop, hpos]

/-- C9, the code at the failing input: a read that fills the whole
`MaxDataLength` buffer (65536 bytes) makes `x2c` emit a frame whose `Length`
is `uint16(65536) = 0` while its payload has 65536 bytes. -/
theorem x2c_full_buffer_length_zero :
    (ConnHandler.x2c 7 [⟨List.replicate 65536 0, IOErr.nil⟩]).emitted
      = [{ ConnId := 7, Length := 0, SeqNum := 1, data := List.replicate 65536 0 }] := by
  have hne : List.replicate 65536 0 ≠ [] := by
    intro h
    have := congrArg List.length h
    rw [List.length_replicate] at this
    exact absurd this (by norm_num)
  unfold ConnHandler.x2c
  rw [x2cLoop_single 7 1 _ hne, List.length_replicate]
  rfl

/-- Below the full buffer the `Length` field is the number of bytes read: a
read of `n` bytes with `1 ≤ n ≤ 65535` gives a frame with `Length = n` and the
bytes read as payload. -/
theorem x2c_length_below_full (cid seq : Nat) (data : List Nat)
    (h1 : 1 ≤ data.length) (h2 : data.length ≤ 65535) :
    (ConnHandler.x2cLoop cid seq [⟨data, IOErr.nil⟩]).emitted
      = [{ ConnId := cid, Length := data.length, SeqNum := seq, data := data }] := by
  have hne : data ≠ [] := by
    intro h
    rw [h] at h1
    exact absurd h1 (by simp)
  rw [x2cLoop_single cid seq data hne, Nat.mod_eq_of_lt (by unfold u16; omega)]

/-! ## C10: signals on the inbound pump -/

/-- C10, the code at the failing input: the header `{cid=3, Length=0,
SeqNum=CREATE_CONN}` followed by a read that returns 0 bytes and `io.EOF`.
`s2c` does not abort at the signal: it goes on to the payload read, accepts
the 0 bytes, and forwards the CREATE_CONN frame on the ingress channel. -/
theorem s2c_create_conn_forwarded :
    TunnelWorker.s2c [⟨headerBytes 3 0 TMCreateConnSeq, IOErr.nil, false⟩, ⟨[], IOErr.EOF, false⟩]
      = { forwarded := [{ ConnId := 3, Length := 0, SeqNum := 1, data := [] }],
          exit := LoopExit.returned } := by
  decide

/-- The same header followed by a read of 0 bytes without error: the frame is
forwarded and the pump keeps running. -/
theorem s2c_create_conn_keeps_running :
    TunnelWorker.s2c [⟨headerBytes 3 0 TMCreateConnSeq, IOErr.nil, false⟩, ⟨[], IOErr.nil, false⟩]
      = { forwarded := [{ ConnId := 3, Length := 0, SeqNum := 1, data := [] }],
          exit := LoopExit.blocked } := by
  decide

theorem s2cHeader_headerBytes (cid seq : Nat) (hc : cid < u16) (hs : seq < u32)
    (err : IOErr) (c : Bool) (he : err ≠ IOErr.EOF) :
    TunnelWorker.s2cHeader ⟨headerBytes cid 0 seq, err, c⟩
      = if seq = TMHeartBeatSeq then HeaderStep.skip
        else if seq = TMCloseConnSeq ∨ seq = TMCreateConnSeq ∨ seq = TMCloseTunnelSeq then
          HeaderStep.payload { ConnId := cid, Length := 0, SeqNum := seq, data := [] }
        else if seq = TMCreateConnOKSeq then
          HeaderStep.forward { ConnId := cid, Length := 0, SeqNum := seq, data := [] }
        else HeaderStep.stop LoopExit.panicked := by
  unfold u16 at hc
  unfold u32 at hs
  have e1 : cid % 256 + cid / 256 % 256 * 256 = cid := by omega
  have e3 : seq % 256 + seq / 256 % 256 * 256 + seq / 65536 % 256 * 65536
      + seq / 16777216 % 256 * 16777216 = seq := by omega
  have hdec : unWrapDataFrame ((headerBytes cid 0 seq ++ List.replicate 8 0).take 8)
      = some { ConnId := cid, Length := 0, SeqNum := seq, data := [] } := by
    unfold headerBytes
    rw [wrapDataFrame_eq]
    simp [unWrapDataFrame, Uint16, Uint32, e1, e3]
  have hlen : (headerBytes cid 0 seq).length = 8 := by
    unfold headerBytes
    rw [wrapDataFrame_length]
    rfl
  unfold TunnelWorker.s2cHeader
  simp only [hdec, hlen, he]
  simp only [TMHeartBeatSeq, TMCloseConnSeq, TMCreateConnSeq, TMCreateConnOKSeq,
    TMCloseTunnelSeq]
  by_cases h0 : seq = 0
  · simp [h0]
  by_cases h3 : seq = 3
  · simp [h3]
  by_cases h1 : seq = 1
  · simp [h1]
  by_cases h2 : seq = 2
  · simp [h2]
  by_cases h5 : seq = 5
  · simp [h5]
  simp [h0, h1, h2, h3, h5]

/-- The part of C10 the code does: a zero-length header whose signal is none
of the codes the `switch` names (0, 1, 2, 3, 5) makes `s2c` panic; nothing is
forwarded for it, whatever the socket returns next. -/
theorem s2c_unknown_signal_aborts (cid seq : Nat) (hc : cid < u16) (hs : seq < u32)
    (hu : seq ≠ 0 ∧ seq ≠ 1 ∧ seq ≠ 2 ∧ seq ≠ 3 ∧ seq ≠ 5)
    (err : IOErr) (c : Bool) (he : err ≠ IOErr.EOF) (rest : List TunnelRead) :
    TunnelWorker.s2c (⟨headerBytes cid 0 seq, err, c⟩ :: rest)
      = { forwarded := [], exit := LoopExit.panicked } := by
  obtain ⟨h0, h1, h2, h3, h5⟩ := hu
  unfold TunnelWorker.s2c
  rw [s2cHeader_headerBytes cid seq hc hs err c he]
  simp [TMHeartBeatSeq, TMCloseConnSeq, TMCreateConnSeq, TMCreateConnOKSeq, TMCloseTunnelSeq,
    h0, h1, h2, h3, h5]

/-! ## C6: outbound sequence numbers -/

theorem x2cLoop_cons (cid seq : Nat) (r : ReadResult) (rs : List ReadResult) :
    ConnHandler.x2cLoop cid seq (r :: rs)
      = if r.err = IOErr.EOF then
          { emitted := if r.data.length > 0 then
              [{ ConnId := cid, SeqNum := seq, Length := r.data.length % u16, data := r.data }]
              else [],
            exit := LoopExit.returned }
        else if r.err ≠ IOErr.nil then
          { emitted := if r.data.length > 0 then
              [{ ConnId := cid, SeqNum := seq, Length := r.data.length % u16, data := r.data }]
              else [],
            exit := LoopExit.panicked }
        else
          { emitted := (if r.data.length > 0 then
              [{ ConnId := cid, SeqNum := seq, Length := r.data.length % u16, data := r.data }]
              else [])
              ++ (ConnHandler.x2cLoop cid
                    (if r.data.length > 0 then (seq + 1) % u32 else seq) rs).emitted,
            exit := (ConnHandler.x2cLoop cid
                    (if r.data.length > 0 then (seq + 1) % u32 else seq) rs).exit } := by
  rfl

theorem x2cLoop_seqs (cid : Nat) (reads : List ReadResult) :
    ∀ seq, ((ConnHandler.x2cLoop cid seq reads).emitted.map fun f => f.SeqNum)
      = (List.range (ConnHandler.x2cLoop cid seq reads).emitted.length).map
          fun i => if i = 0 then seq else (seq + i) % u32 := by
  induction reads with
  | nil => intro seq; simp [ConnHandler.x2cLoop]
  | cons r rs ih =>
    intro seq
    have tail : ∀ s : Nat, s = (seq + 1) % u32 →
        seq :: ((ConnHandler.x2cLoop cid s rs).emitted.map fun f => f.SeqNum)
          = (List.range ((ConnHandler.x2cLoop cid s rs).emitted.length + 1)).map
              fun i => if i = 0 then seq else (seq + i) % u32 := by
      intro s hs
      rw [ih s, List.range_succ_eq_map, List.map_cons, List.map_map]
      simp only [if_true, List.cons.injEq, true_and]
      apply List.map_congr_left
      intro i _
      simp only [Function.comp, Nat.succ_ne_zero, if_false]
      by_cases hi : i = 0
      · simp [hi, hs]
      · simp only [hi, if_false, hs]
        rw [Nat.add_mod, Nat.mod_mod, ← Nat.add_mod]
        congr 1
        omega
    rw [x2cLoop_cons]
    by_cases hn : r.data.length > 0
    · by_cases he : r.err = IOErr.EOF
      · simp [hn, he, List.range_succ]
      · by_cases he2 : r.err = IOErr.nil
        · simp only [hn, he, he2, if_true, if_false, ne_eq, not_true_eq_false,
            List.singleton_append, List.map_cons, List.length_cons]
          exact tail _ rfl
        · simp [hn, he, he2, List.range_succ]
    · by_cases he : r.err = IOErr.EOF
      · simp [hn, he]
      · by_cases he2 : r.err = IOErr.nil
        · simp only [hn, he, he2, if_true, if_false, ne_eq, not_true_eq_false,
            List.nil_append]
          exact ih seq
        · simp [hn, he, he2]

theorem x2c_seq_getElem (cid : Nat) (reads : List ReadResult) (i : Nat)
    (h : i < (ConnHandler.x2c cid reads).emitted.length) :
    ((ConnHandler.x2c cid reads).emitted.get ⟨i, h⟩).SeqNum = (i + 1) % u32 := by
  have hs := x2cLoop_seqs cid reads 1
  have h1 : ((ConnHandler.x2cLoop cid 1 reads).emitted.map fun f => f.SeqNum)[i]?
      = some ((ConnHandler.x2c cid reads).emitted.get ⟨i, h⟩).SeqNum := by
    rw [List.getElem?_map]
    unfold ConnHandler.x2c at h ⊢
    rw [List.getElem?_eq_getElem h]
    rfl
  rw [hs, List.getElem?_map] at h1
  unfold ConnHandler.x2c at h
  rw [List.getElem?_range h] at h1
  simp only [Option.map_some', Option.some.injEq] at h1
  rw [← h1]
  by_cases hi : i = 0
  · subst hi
    simp [u32]
  · simp only [hi, if_false]
    rw [Nat.add_comm]

theorem x2cLoop_zero_read (cid seq : Nat) (r : ReadResult) (rs : List ReadResult)
    (h0 : r.data = []) :
    (ConnHandler.x2cLoop cid seq (r :: rs)).emitted
      = if r.err = IOErr.nil then (ConnHandler.x2cLoop cid seq rs).emitted else [] := by
  rw [x2cLoop_cons]
  by_cases he : r.err = IOErr.EOF
  · simp [h0, he]
  · by_cases he2 : r.err = IOErr.nil
    · simp [h0, he2]
    · simp [h0, he, he2]

/-- C6 (as amended). Outbound sequence numbers: for every finite sequence of
read results, the `i`-th frame `x2c` emits (counting from 1) carries
`SeqNum = i mod 2^32`; so the first `2^32 - 1` frames carry 1, 2, 3, ...
without gap. A read that returns zero bytes emits no frame and consumes no
sequence number: with no error the loop goes on with the same `seq`. -/
theorem x2c_seqnum (cid : Nat) (reads : List ReadResult) :
    (∀ i (h : i < (ConnHandler.x2c cid reads).emitted.length),
        ((ConnHandler.x2c cid reads).emitted.get ⟨i, h⟩).SeqNum = (i + 1) % u32)
      ∧ (∀ i (h : i < (ConnHandler.x2c cid reads).emitted.length), i + 1 < u32 →
        ((ConnHandler.x2c cid reads).emitted.get ⟨i, h⟩).SeqNum = i + 1)
      ∧ (∀ (seq : Nat) (r : ReadResult) (rs : List ReadResult), r.data = [] →
        (ConnHandler.x2cLoop cid seq (r :: rs)).emitted
          = if r.err = IOErr.nil then (ConnHandler.x2cLoop cid seq rs).emitted else []) := by
  refine ⟨x2c_seq_getElem cid reads, ?_, fun seq r rs h0 => x2cLoop_zero_read cid seq r rs h0⟩
  intro i h hi
  rw [x2c_seq_getElem cid reads i h, Nat.mod_eq_of_lt hi]

theorem x2cLoop_replicate_length (cid : Nat) (r : ReadResult) (hd : r.data ≠ [])
    (he : r.err = IOErr.nil) : ∀ (n seq : Nat),
    (ConnHandler.x2cLoop cid seq (List.replicate n r)).emitted.length = n := by
  have hpos : r.data.length > 0 := List.length_pos.mpr hd
  intro n
  induction n with
  | zero => intro seq; simp [ConnHandler.x2cLoop]
  | succ n ih =>
    intro seq
    rw [List.replicate_succ, x2cLoop_cons]
    simp only [hpos, he, if_true, if_false, ne_eq, not_true_eq_false, reduceCtorEq,
      List.singleton_append, List.length_cons, ih]

/-- C6, counterexample: after `2^32` reads of one byte each, the `2^32`-th
frame `x2c` has emitted carries `SeqNum = 0`, not `2^32`: the `uint32` counter
has wrapped, and the sequence numbers are no longer increasing. -/
theorem x2c_seqnum_wraps :
    ∃ h : 4294967295
        < (ConnHandler.x2c 7 (List.replicate 4294967296 ⟨[0], IOErr.nil⟩)).emitted.length,
      ((ConnHandler.x2c 7 (List.replicate 4294967296 ⟨[0], IOErr.nil⟩)).emitted.get
        ⟨4294967295, h⟩).SeqNum = 0 := by
  have hlen : (ConnHandler.x2c 7 (List.replicate 4294967296 ⟨[0], IOErr.nil⟩)).emitted.length
      = 4294967296 :=
    x2cLoop_replicate_length 7 ⟨[0], IOErr.nil⟩ (by simp) rfl 4294967296 1
  have hlt : 4294967295
      < (ConnHandler.x2c 7 (List.replicate 4294967296 ⟨[0], IOErr.nil⟩)).emitted.length := by
    rw [hlen]
    norm_num
  refine ⟨hlt, ?_⟩
  rw [x2c_seq_getElem 7 _ 4294967295 hlt]
  norm_num [u32]

/-! ## Go map lemmas -/

theorem mapGet_cons {α : Type} (p : Nat × α) (m : List (Nat × α)) (k : Nat) :
    mapGet (p :: m) k = if p.1 = k then some p.2 else mapGet m k := by
  unfold mapGet
  by_cases h : p.1 = k
  · simp [List.find?_cons, h]
  · simp [List.find?_cons, h]

theorem mapDelete_cons {α : Type} (p : Nat × α) (m : List (Nat × α)) (k : Nat) :
    mapDelete (p :: m) k = if p.1 = k then mapDelete m k else p :: mapDelete m k := by
  unfold mapDelete
  by_cases h : p.1 = k
  · simp [List.filter_cons, h]
  · simp [List.filter_cons, h]

theorem mapGet_mapDelete {α : Type} (m : List (Nat × α)) (k k1 : Nat) :
    mapGet (mapDelete m k) k1 = if k1 = k then none else mapGet m k1 := by
  induction m with
  | nil => simp [mapGet, mapDelete]
  | cons p m ih =>
    rw [mapDelete_cons, mapGet_cons]
    by_cases hp : p.1 = k
    · rw [if_pos hp, ih]
      by_cases hk : k1 = k
      · simp [hk]
      · have : ¬ p.1 = k1 := fun h => hk (h.symm.trans hp)
        simp [hk, this]
    · rw [if_neg hp, mapGet_cons, ih]
      by_cases hk : k1 = k
      · subst hk
        simp [hp]
      · simp [hk]

theorem mapGet_mapSet {α : Type} (m : List (Nat × α)) (k k1 : Nat) (v : α) :
    mapGet (mapSet m k v) k1 = if k1 = k then some v else mapGet m k1 := by
  unfold mapSet
  rw [mapGet_cons, mapGet_mapDelete]
  by_cases hk : k1 = k
  · simp [hk]
  · have : ¬ k = k1 := fun h => hk h.symm
    simp [hk, this]

theorem mapDelete_length_le {α : Type} (m : List (Nat × α)) (k : Nat) :
    (mapDelete m k).length ≤ m.length := by
  unfold mapDelete
  exact List.length_filter_le _ _

theorem mapDelete_length_lt {α : Type} (m : List (Nat × α)) (k : Nat) (v : α)
    (h : mapGet m k = some v) : (mapDelete m k).length < m.length := by
  induction m with
  | nil => simp [mapGet] at h
  | cons p m ih =>
    rw [mapDelete_cons]
    rw [mapGet_cons] at h
    by_cases hp : p.1 = k
    · have := mapDelete_length_le m k
      rw [if_pos hp, List.length_cons]
      omega
    · rw [if_neg hp] at h
      have := ih h
      rw [if_neg hp, List.length_cons, List.length_cons]
      omega

/-! ## C5: cid allocation -/

theorem c2xDrain_none (w : Nat → IOErr) (fuel : Nat) (st : C2xState)
    (h : mapGet st.cache st.seq = none) : ConnHandler.c2xDrain w fuel st = st := by
  cases fuel with
  | zero => rfl
  | succ fuel => simp only [ConnHandler.c2xDrain, h]

theorem c2xDrain_some_ok (w : Nat → IOErr) (fuel : Nat) (st : C2xState) (data : List Nat)
    (h : mapGet st.cache st.seq = some data) (hw : w st.writes.length = IOErr.nil) :
    ConnHandler.c2xDrain w (fuel + 1) st
      = ConnHandler.c2xDrain w fuel
          { seq := (st.seq + 1) % u32, cache := mapDelete st.cache st.seq,
            writes := st.writes ++ [(st.seq, data)], exit := st.exit } := by
  simp only [ConnHandler.c2xDrain, h, hw]

theorem c2xDrain_some_fail (w : Nat → IOErr) (fuel : Nat) (st : C2xState) (data : List Nat)
    (h : mapGet st.cache st.seq = some data) (hw : w st.writes.length ≠ IOErr.nil) :
    (ConnHandler.c2xDrain w (fuel + 1) st).writes = st.writes ++ [(st.seq, data)]
      ∧ (ConnHandler.c2xDrain w (fuel + 1) st).exit ≠ LoopExit.blocked := by
  cases hc : w st.writes.length with
  | nil => exact absurd hc hw
  | EOF => simp [ConnHandler.c2xDrain, h, hc]
  | other => simp [ConnHandler.c2xDrain, h, hc]

/-- The fuel `len(cache) + 1` is enough: with that much, one more unit of fuel
does not change the result of the inner loop. -/
theorem c2xDrain_fuel_enough (w : Nat → IOErr) : ∀ (fuel : Nat) (st : C2xState),
    st.cache.length < fuel →
      ConnHandler.c2xDrain w (fuel + 1) st = ConnHandler.c2xDrain w fuel st := by
  intro fuel
  induction fuel with
  | zero => intro st hf; exact absurd hf (Nat.not_lt_zero _)
  | succ fuel ih =>
    intro st hf
    cases hg : mapGet st.cache st.seq with
    | none => rw [c2xDrain_none w _ st hg, c2xDrain_none w _ st hg]
    | some data =>
      have hlt := mapDelete_length_lt st.cache st.seq data hg
      cases hc : w st.writes.length with
      | nil =>
        rw [c2xDrain_some_ok w (fuel + 1) st data hg hc, c2xDrain_some_ok w fuel st data hg hc]
        apply ih
        show (mapDelete st.cache st.seq).length < fuel
        omega
      | EOF => simp only [ConnHandler.c2xDrain, hg, hc]
      | other => simp only [ConnHandler.c2xDrain, hg, hc]

theorem c2xStep_lt (w : Nat → IOErr) (st : C2xState) (d : dataFrame)
    (h : d.SeqNum < st.seq) : ConnHandler.c2xStep w st d = st := by
  have h1 : ¬ d.SeqNum = st.seq := by omega
  have h2 : ¬ d.SeqNum > st.seq := by omega
  unfold ConnHandler.c2xStep
  by_cases he : st.exit ≠ LoopExit.blocked
  · rw [if_pos he]
  · rw [if_neg he, if_neg h1, if_neg h2]

theorem c2xStep_gt (w : Nat → IOErr) (st : C2xState) (d : dataFrame)
    (he : st.exit = LoopExit.blocked) (h : d.SeqNum > st.seq) :
    ConnHandler.c2xStep w st d = { st with cache := mapSet st.cache d.SeqNum d.data } := by
  have h1 : ¬ d.SeqNum = st.seq := by omega
  have he1 : ¬ st.exit ≠ LoopExit.blocked := by simp [he]
  unfold ConnHandler.c2xStep
  rw [if_neg he1, if_neg h1, if_pos h]

theorem c2xStep_eq_ok (w : Nat → IOErr) (st : C2xState) (d : dataFrame)
    (he : st.exit = LoopExit.blocked) (h : d.SeqNum = st.seq)
    (hw : w st.writes.length = IOErr.nil) :
    ConnHandler.c2xStep w st d
      = ConnHandler.c2xDrain w (st.cache.length + 1)
          { seq := (st.seq + 1) % u32, cache := st.cache,
            writes := st.writes ++ [(st.seq, d.data)], exit := st.exit } := by
  have he1 : ¬ st.exit ≠ LoopExit.blocked := by simp [he]
  unfold ConnHandler.c2xStep
  rw [if_neg he1, if_pos h]
  simp only [hw]
  by_cases hc : st.cache.length = 0
  · rw [if_pos hc]
    have hnil : st.cache = [] := List.eq_nil_of_length_eq_zero hc
    rw [c2xDrain_none]
    simp [hnil, mapGet]
  · rw [if_neg hc]

theorem c2xStep_eq_fail (w : Nat → IOErr) (st : C2xState) (d : dataFrame)
    (he : st.exit = LoopExit.blocked) (h : d.SeqNum = st.seq)
    (hw : w st.writes.length ≠ IOErr.nil) :
    (ConnHandler.c2xStep w st d).writes = st.writes ++ [(st.seq, d.data)]
      ∧ (ConnHandler.c2xStep w st d).exit ≠ LoopExit.blocked := by
  have he1 : ¬ st.exit ≠ LoopExit.blocked := by simp [he]
  unfold ConnHandler.c2xStep
  rw [if_neg he1, if_pos h]
  cases hc : w st.writes.length with
  | nil => exact absurd hc hw
  | EOF => simp
  | other => simp

/-! ## C4: at-most-once delivery -/

theorem writes_snoc_order (ws : List (Nat × List Nat)) (s : Nat) (data : List Nat)
    (hs : 1 ≤ s) (h : ws.map Prod.fst = List.range' 1 (s - 1)) :
    (ws ++ [(s, data)]).map Prod.fst = List.range' 1 (s + 1 - 1) := by
  have e : s + 1 - 1 = (s - 1) + 1 := by omega
  rw [List.map_append, h, e, List.range'_concat]
  have e2 : 1 + 1 * (s - 1) = s := by omega
  rw [e2]
  rfl

theorem drainOrderInv_drain (w : Nat → IOErr) (hw : ∀ i, w i = IOErr.nil) (k : Nat)
    (hwrap : k + 1 < u32) (P : List dataFrame) (hP : ∀ f ∈ P, f.SeqNum ≠ k + 1) :
    ∀ (fuel : Nat) (st : C2xState), drainOrderInv k P st → st.cache.length < fuel →
      orderInv k P (ConnHandler.c2xDrain w fuel st) := by
  intro fuel
  induction fuel with
  | zero => intro st _ hf; exact absurd hf (Nat.not_lt_zero _)
  | succ fuel ih =>
    intro st hinv hf
    obtain ⟨he, h1, hle, hws, hwp, hc, hin⟩ := hinv
    cases hg : mapGet st.cache st.seq with
    | none =>
      rw [c2xDrain_none w _ st hg]
      refine ⟨he, h1, hle, hws, hwp, ?_, ?_, ?_⟩
      · intro s v hs
        obtain ⟨hge, hf1⟩ := hc s v hs
        have hne : s ≠ st.seq := by
          intro h
          rw [h, hg] at hs
          exact absurd hs (by simp)
        exact ⟨by omega, hf1⟩
      · intro f hf1 hlt
        exact hin f hf1 (by omega)
      · intro f hf1 heq
        have := hin f hf1 (by omega)
        rw [heq, hg] at this
        exact absurd this (by simp)
    | some data =>
      have hlt := mapDelete_length_lt st.cache st.seq data hg
      obtain ⟨_, f0, hf0, hf0s, hf0d⟩ := hc st.seq data hg
      have hne : st.seq ≠ k + 1 := by
        rw [← hf0s]
        exact hP f0 hf0
      have hmod : (st.seq + 1) % u32 = st.seq + 1 := by
        apply Nat.mod_eq_of_lt
        omega
      rw [c2xDrain_some_ok w fuel st data hg (hw _), hmod]
      apply ih
      · refine ⟨he, ?_, ?_, ?_, ?_, ?_, ?_⟩
        · show 1 ≤ st.seq + 1
          omega
        · show st.seq + 1 ≤ k + 1
          omega
        · exact writes_snoc_order st.writes st.seq data h1 hws
        · intro p hp
          have hp1 : p ∈ st.writes ++ [(st.seq, data)] := hp
          rw [List.mem_append, List.mem_singleton] at hp1
          rcases hp1 with hp1 | hp1
          · exact hwp p hp1
          · subst hp1
            exact ⟨f0, hf0, hf0s, hf0d⟩
        · intro s v hs
          have hs1 : mapGet (mapDelete st.cache st.seq) s = some v := hs
          rw [mapGet_mapDelete] at hs1
          by_cases hss : s = st.seq
          · rw [if_pos hss] at hs1
            exact absurd hs1 (by simp)
          · rw [if_neg hss] at hs1
            obtain ⟨hge, hf1⟩ := hc s v hs1
            refine ⟨?_, hf1⟩
            show st.seq + 1 ≤ s
            omega
        · intro f hf1 hge
          have hge1 : st.seq + 1 ≤ f.SeqNum := hge
          show mapGet (mapDelete st.cache st.seq) f.SeqNum = some f.data
          rw [mapGet_mapDelete, if_neg (by omega)]
          exact hin f hf1 (by omega)
      · show (mapDelete st.cache st.seq).length < fuel
        omega

theorem orderInv_step (w : Nat → IOErr) (hw : ∀ i, w i = IOErr.nil) (k : Nat)
    (hwrap : k + 1 < u32) (P : List dataFrame) (d : dataFrame)
    (hP : ∀ f ∈ P, f.SeqNum ≠ k + 1) (hd : d.SeqNum ≠ k + 1)
    (hnew : ∀ f ∈ P, f.SeqNum ≠ d.SeqNum) (st : C2xState) (hinv : orderInv k P st) :
    orderInv k (P ++ [d]) (ConnHandler.c2xStep w st d) := by
  obtain ⟨he, h1, hle, hws, hwp, hc, hin, hnot⟩ := hinv
  have hsub : ∀ f, f ∈ P → f ∈ P ++ [d] := fun f hf => List.mem_append_left _ hf
  have hdmem : d ∈ P ++ [d] := List.mem_append_right _ (List.mem_singleton_self d)
  have hwp1 : ∀ p ∈ st.writes, ∃ f ∈ P ++ [d], f.SeqNum = p.1 ∧ f.data = p.2 := by
    intro p hp
    obtain ⟨f, hf, hfs⟩ := hwp p hp
    exact ⟨f, hsub f hf, hfs⟩
  rcases Nat.lt_trichotomy d.SeqNum st.seq with hlt | heq | hgt
  · rw [c2xStep_lt w st d hlt]
    refine ⟨he, h1, hle, hws, hwp1, ?_, ?_, ?_⟩
    · intro s v hs
      obtain ⟨hge, f, hf, hfs⟩ := hc s v hs
      exact ⟨hge, f, hsub f hf, hfs⟩
    · intro f hf hfl
      rw [List.mem_append, List.mem_singleton] at hf
      rcases hf with hf | hf
      · exact hin f hf hfl
      · subst hf
        omega
    · intro f hf
      rw [List.mem_append, List.mem_singleton] at hf
      rcases hf with hf | hf
      · exact hnot f hf
      · subst hf
        omega
  · have hne : st.seq ≠ k + 1 := by
      rw [← heq]
      exact hd
    have hmod : (st.seq + 1) % u32 = st.seq + 1 := by
      apply Nat.mod_eq_of_lt
      omega
    rw [c2xStep_eq_ok w st d he heq (hw _), hmod]
    apply drainOrderInv_drain w hw k hwrap (P ++ [d])
    · intro f hf
      rw [List.mem_append, List.mem_singleton] at hf
      rcases hf with hf | hf
      · exact hP f hf
      · subst hf
        exact hd
    · refine ⟨he, ?_, ?_, ?_, ?_, ?_, ?_⟩
      · show 1 ≤ st.seq + 1
        omega
      · show st.seq + 1 ≤ k + 1
        omega
      · exact writes_snoc_order st.writes st.seq d.data h1 hws
      · intro p hp
        have hp1 : p ∈ st.writes ++ [(st.seq, d.data)] := hp
        rw [List.mem_append, List.mem_singleton] at hp1
        rcases hp1 with hp1 | hp1
        · exact hwp1 p hp1
        · subst hp1
          exact ⟨d, hdmem, heq, rfl⟩
      · intro s v hs
        obtain ⟨hge, f, hf, hfs⟩ := hc s v hs
        refine ⟨?_, f, hsub f hf, hfs⟩
        show st.seq + 1 ≤ s
        omega
      · intro f hf hge
        have hge1 : st.seq + 1 ≤ f.SeqNum := hge
        rw [List.mem_append, List.mem_singleton] at hf
        rcases hf with hf | hf
        · exact hin f hf (by omega)
        · subst hf
          omega
    · show st.cache.length < st.cache.length + 1
      omega
  · rw [c2xStep_gt w st d he hgt]
    refine ⟨he, h1, hle, hws, hwp1, ?_, ?_, ?_⟩
    · intro s v hs
      have hs1 : mapGet (mapSet st.cache d.SeqNum d.data) s = some v := hs
      rw [mapGet_mapSet] at hs1
      by_cases hsd : s = d.SeqNum
      · rw [if_pos hsd, Option.some.injEq] at hs1
        refine ⟨?_, d, hdmem, hsd.symm, hs1⟩
        show st.seq < s
        omega
      · rw [if_neg hsd] at hs1
        obtain ⟨hge, f, hf, hfs⟩ := hc s v hs1
        exact ⟨hge, f, hsub f hf, hfs⟩
    · intro f hf hfl
      show mapGet (mapSet st.cache d.SeqNum d.data) f.SeqNum = some f.data
      rw [mapGet_mapSet]
      rw [List.mem_append, List.mem_singleton] at hf
      rcases hf with hf | hf
      · rw [if_neg (hnew f hf)]
        exact hin f hf hfl
      · subst hf
        rw [if_pos rfl]
    · intro f hf
      show f.SeqNum ≠ st.seq
      rw [List.mem_append, List.mem_singleton] at hf
      rcases hf with hf | hf
      · exact hnot f hf
      · subst hf
        omega

theorem orderInv_foldl (w : Nat → IOErr) (hw : ∀ i, w i = IOErr.nil) (k : Nat)
    (hwrap : k + 1 < u32) : ∀ (rest P : List dataFrame) (st : C2xState),
    orderInv k P st → (P ++ rest).Pairwise (fun a b => a.SeqNum ≠ b.SeqNum) →
    (∀ f ∈ P ++ rest, f.SeqNum ≠ k + 1) →
    orderInv k (P ++ rest) (rest.foldl (ConnHandler.c2xStep w) st) := by
  intro rest
  induction rest with
  | nil =>
    intro P st h _ _
    rw [List.append_nil]
    exact h
  | cons d rest ih =>
    intro P st h hpair hall
    have e : P ++ d :: rest = (P ++ [d]) ++ rest := by
      rw [List.append_assoc]
      rfl
    rw [List.foldl_cons, e]
    have hP : ∀ f ∈ P, f.SeqNum ≠ k + 1 := fun f hf => hall f (List.mem_append_left _ hf)
    have hd : d.SeqNum ≠ k + 1 :=
      hall d (List.mem_append_right _ (List.mem_cons_self d rest))
    have hnew : ∀ f ∈ P, f.SeqNum ≠ d.SeqNum := by
      intro f hf
      rw [List.pairwise_append] at hpair
      exact hpair.2.2 f hf d (List.mem_cons_self d rest)
    apply ih (P ++ [d]) (ConnHandler.c2xStep w st d)
      (orderInv_step w hw k hwrap P d hP hd hnew st h)
    · rw [← e]
      exact hpair
    · rw [← e]
      exact hall

theorem orderInv_init (k : Nat) : orderInv k [] C2xState.init := by
  refine ⟨rfl, Nat.le_refl 1, ?_, rfl, ?_, ?_, ?_, ?_⟩
  · show 1 ≤ k + 1
    omega
  · intro p hp
    simp [C2xState.init] at hp
  · intro s v hs
    simp [C2xState.init, mapGet] at hs
  · intro f hf
    simp at hf
  · intro f hf
    simp at hf

theorem payloadOf_of_mem : ∀ (frames : List dataFrame) (f : dataFrame),
    frames.Pairwise (fun a b => a.SeqNum ≠ b.SeqNum) → f ∈ frames →
    payloadOf frames f.SeqNum = f.data := by
  intro frames
  induction frames with
  | nil => intro f _ hf; simp at hf
  | cons a l ih =>
    intro f hpair hf
    rw [List.pairwise_cons] at hpair
    rw [List.mem_cons] at hf
    unfold payloadOf
    by_cases ha : a.SeqNum = f.SeqNum
    · rcases hf with hf | hf
      · subst hf
        simp [List.find?_cons]
      · exact absurd ha (hpair.1 f hf)
    · rcases hf with hf | hf
      · subst hf
        exact absurd rfl ha
      · have := ih f hpair.2 hf
        unfold payloadOf at this
        have hb : (a.SeqNum == f.SeqNum) = false := by simp [ha]
        simp only [List.find?_cons, hb]
        exact this

/-- C3 (as amended). In-order reassembly: let data frames with pairwise
distinct sequence numbers arrive in any order, every socket write succeeding,
and let `k` be the largest number such that frames `1..k` have all arrived,
with `k < 2^32 - 1`. Then the `Write` calls `c2x` has made carry exactly the
payloads of sequence numbers 1, 2, ..., k in that order (so the bytes on the
user socket are their concatenation), the loop is still running and expects
`k + 1`, and the reorder buffer holds exactly the arrivals whose sequence
number is larger than `k`. -/
theorem c2x_in_order (w : Nat → IOErr) (frames : List dataFrame) (k : Nat)
    (hw : ∀ i, w i = IOErr.nil)
    (hdist : frames.Pairwise (fun a b => a.SeqNum ≠ b.SeqNum))
    (hk : ∀ i, 1 ≤ i → i ≤ k → ∃ f ∈ frames, f.SeqNum = i)
    (hk1 : ∀ f ∈ frames, f.SeqNum ≠ k + 1)
    (hwrap : k + 1 < u32) :
    (ConnHandler.c2x w frames).written = ((List.range' 1 k).map (payloadOf frames)).flatten
      ∧ (ConnHandler.c2x w frames).writes
          = (List.range' 1 k).map (fun i => (i, payloadOf frames i))
      ∧ (ConnHandler.c2x w frames).seq = k + 1
      ∧ (ConnHandler.c2x w frames).exit = LoopExit.blocked
      ∧ (∀ f ∈ frames, k < f.SeqNum →
          mapGet (ConnHandler.c2x w frames).cache f.SeqNum = some f.data)
      ∧ (∀ s v, mapGet (ConnHandler.c2x w frames).cache s = some v →
          k < s ∧ ∃ f ∈ frames, f.SeqNum = s ∧ f.data = v) := by
  have hinv := orderInv_foldl w hw k hwrap frames [] C2xState.init (orderInv_init k)
    (by rw [List.nil_append]; exact hdist) (by rw [List.nil_append]; exact hk1)
  rw [List.nil_append] at hinv
  obtain ⟨he, h1, hle, hws, hwp, hc, hin, hnot⟩ := hinv
  have hseq : (frames.foldl (ConnHandler.c2xStep w) C2xState.init).seq = k + 1 := by
    by_contra hne
    obtain ⟨f, hf, hfs⟩ := hk _ h1 (by omega)
    exact hnot f hf hfs
  rw [hseq] at hws hc hin
  have hwrites : (frames.foldl (ConnHandler.c2xStep w) C2xState.init).writes
      = (List.range' 1 k).map (fun i => (i, payloadOf frames i)) := by
    have e : k + 1 - 1 = k := by omega
    rw [e] at hws
    rw [← hws, List.map_map]
    symm
    conv_rhs => rw [← List.map_id (frames.foldl (ConnHandler.c2xStep w) C2xState.init).writes]
    apply List.map_congr_left
    intro p hp
    obtain ⟨f, hf, hfs, hfd⟩ := hwp p hp
    have := payloadOf_of_mem frames f hdist hf
    simp only [Function.comp, id]
    rw [← hfs, this, hfd, hfs]
  unfold ConnHandler.c2x
  refine ⟨?_, hwrites, hseq, he, ?_, ?_⟩
  · unfold C2xState.written
    rw [hwrites, List.map_map]
    rfl
  · intro f hf hkf
    have := hk1 f hf
    exact hin f hf (by omega)
  · intro s v hs
    obtain ⟨hlt, hf⟩ := hc s v hs
    exact ⟨by omega, hf⟩

/-- Witness of `c2x_in_order`: the arrivals `{seq=2,"wo"}` then `{seq=1,"he"}`;
the user socket receives "hewo". -/
theorem c2x_in_order_witness :
    (ConnHandler.c2x (fun _ => IOErr.nil)
        [⟨7, 2, 2, [119, 111]⟩, ⟨7, 2, 1, [104, 101]⟩]).written = [104, 101, 119, 111]
      ∧ (ConnHandler.c2x (fun _ => IOErr.nil)
        [⟨7, 2, 2, [119, 111]⟩, ⟨7, 2, 1, [104, 101]⟩]).seq = 3 := by
  have h := c2x_in_order (fun _ => IOErr.nil)
    [⟨7, 2, 2, [119, 111]⟩, ⟨7, 2, 1, [104, 101]⟩] 2 (fun _ => rfl) (by decide)
    (by
      intro i h1 h2
      have hi : i = 1 ∨ i = 2 := by omega
      rcases hi with hi | hi
      · subst hi
        exact ⟨⟨7, 2, 1, [104, 101]⟩, by decide, rfl⟩
      · subst hi
        exact ⟨⟨7, 2, 2, [119, 111]⟩, by decide, rfl⟩)
    (by decide) (by decide)
  refine ⟨?_, h.2.2.1⟩
  rw [h.1]
  decide

/-- The first half of the scenario: after `{seq=2,"wo"}` alone nothing has been
written and the frame sits in the reorder buffer. -/
theorem c2x_out_of_order_first :
    (ConnHandler.c2x (fun _ => IOErr.nil) [⟨7, 2, 2, [119, 111]⟩]).written = []
      ∧ (ConnHandler.c2x (fun _ => IOErr.nil) [⟨7, 2, 2, [119, 111]⟩]).cache
          = [(2, [119, 111])] := by
  decide

/-! ## The `uint32` counter of `c2x` wraps -/

theorem c2x_run_unit (w : Nat → IOErr) (hw : ∀ i, w i = IOErr.nil) :
    ∀ (n s : Nat) (W : List (Nat × List Nat)), s + n ≤ u32 →
      ((List.range' s n).map unitFrame).foldl (ConnHandler.c2xStep w)
          { seq := s, cache := [], writes := W, exit := LoopExit.blocked }
        = { seq := if n = 0 then s else (s + n) % u32, cache := [],
            writes := W ++ (List.range' s n).map (fun i => (i, [1])),
            exit := LoopExit.blocked } := by
  intro n
  induction n with
  | zero =>
    intro s W _
    simp
  | succ n ih =>
    intro s W hs
    have hstep : ConnHandler.c2xStep w
        { seq := s, cache := [], writes := W, exit := LoopExit.blocked } (unitFrame s)
        = { seq := (s + 1) % u32, cache := [], writes := W ++ [(s, [1])],
            exit := LoopExit.blocked } := by
      rw [c2xStep_eq_ok w _ (unitFrame s) rfl rfl (hw _)]
      exact c2xDrain_none w _ _ rfl
    rw [List.range'_succ, List.map_cons, List.foldl_cons, hstep]
    by_cases hn : n = 0
    · subst hn
      simp
    · have hlt : s + 1 < u32 := by omega
      rw [Nat.mod_eq_of_lt hlt, ih (s + 1) (W ++ [(s, [1])]) (by omega)]
      have e : s + 1 + n = s + (n + 1) := by omega
      simp [hn, e]

theorem c2x_wrapArrivals_head :
    ((List.range' 1 4294967295).map unitFrame).foldl
        (ConnHandler.c2xStep (fun _ => IOErr.nil)) C2xState.init
      = { seq := 0, cache := [],
          writes := (List.range' 1 4294967295).map (fun i => (i, [1])),
          exit := LoopExit.blocked } := by
  have h := c2x_run_unit (fun _ => IOErr.nil) (fun _ => rfl) 4294967295 1 []
    (by unfold u32; norm_num)
  have e1 : (if (4294967295 : Nat) = 0 then 1 else (1 + 4294967295) % u32) = 0 := by
    unfold u32
    norm_num
  rw [e1, List.nil_append] at h
  exact h

theorem c2x_wrapArrivals_state :
    ConnHandler.c2x (fun _ => IOErr.nil) wrapArrivals
      = { seq := 1, cache := [],
          writes := (List.range' 1 4294967295).map (fun i => (i, [1])) ++ [(0, [0])],
          exit := LoopExit.blocked } := by
  unfold ConnHandler.c2x wrapArrivals
  rw [List.foldl_append, c2x_wrapArrivals_head, List.foldl_cons, List.foldl_nil,
    c2xStep_eq_ok _ _ _ rfl rfl rfl]
  exact c2xDrain_none _ _ _ rfl

/-- C3, counterexample: the arrivals 1, 2, ..., `2^32 - 1`, then 0. The
sequence numbers are pairwise distinct and in the range of `uint32`, every
write succeeds, and `k = 2^32 - 1` is the largest number such that frames
`1..k` have all arrived. After delivering `1..k` the counter `seq` has wrapped
to 0, so the last arrival is written as well: the writes are the payloads of
`1..k` followed by the payload of sequence number 0. -/
theorem c2x_in_order_wrap_counterexample :
    wrapArrivals.Pairwise (fun a b => a.SeqNum ≠ b.SeqNum)
      ∧ (∀ f ∈ wrapArrivals, f.inRange)
      ∧ (∀ i, 1 ≤ i → i ≤ 4294967295 → ∃ f ∈ wrapArrivals, f.SeqNum = i)
      ∧ (∀ f ∈ wrapArrivals, f.SeqNum ≠ 4294967295 + 1)
      ∧ (ConnHandler.c2x (fun _ => IOErr.nil) wrapArrivals).writes
          = (List.range' 1 4294967295).map (fun i => (i, [1])) ++ [(0, [0])]
      ∧ (ConnHandler.c2x (fun _ => IOErr.nil) wrapArrivals).writes
          ≠ (List.range' 1 4294967295).map (fun i => (i, payloadOf wrapArrivals i)) := by
  have hmem : ∀ f ∈ wrapArrivals,
      (∃ i, 1 ≤ i ∧ i < 1 + 4294967295 ∧ f = unitFrame i)
        ∨ f = { ConnId := 7, Length := 1, SeqNum := 0, data := [0] } := by
    intro f hf
    unfold wrapArrivals at hf
    rw [List.mem_append, List.mem_map, List.mem_singleton] at hf
    rcases hf with ⟨i, hi, hfi⟩ | hf
    · rw [List.mem_range'_1] at hi
      exact Or.inl ⟨i, hi.1, hi.2, hfi.symm⟩
    · exact Or.inr hf
  refine ⟨?_, ?_, ?_, ?_, ?_, ?_⟩
  · unfold wrapArrivals
    rw [List.pairwise_append, List.pairwise_map]
    refine ⟨List.nodup_range' 1 4294967295, List.pairwise_singleton _ _, ?_⟩
    intro a ha b hb
    rw [List.mem_map] at ha
    rw [List.mem_singleton] at hb
    obtain ⟨i, hi, hai⟩ := ha
    rw [List.mem_range'_1] at hi
    subst hai
    subst hb
    show i ≠ 0
    omega
  · intro f hf
    rcases hmem f hf with ⟨i, h1, h2, hfi⟩ | hf0
    · subst hfi
      refine ⟨?_, ?_, ?_⟩
      · show 7 < u16
        unfold u16
        norm_num
      · show 1 < u16
        unfold u16
        norm_num
      · show i < u32
        unfold u32
        omega
    · subst hf0
      refine ⟨?_, ?_, ?_⟩
      · show 7 < u16
        unfold u16
        norm_num
      · show 1 < u16
        unfold u16
        norm_num
      · show 0 < u32
        unfold u32
        norm_num
  · intro i h1 h2
    refine ⟨unitFrame i, ?_, rfl⟩
    unfold wrapArrivals
    rw [List.mem_append, List.mem_map]
    exact Or.inl ⟨i, List.mem_range'_1.mpr ⟨h1, by omega⟩, rfl⟩
  · intro f hf
    rcases hmem f hf with ⟨i, h1, h2, hfi⟩ | hf0
    · subst hfi
      show i ≠ 4294967295 + 1
      omega
    · subst hf0
      show 0 ≠ 4294967295 + 1
      omega
  · rw [c2x_wrapArrivals_state]
  · rw [c2x_wrapArrivals_state]
    intro h
    have hl := congrArg List.length h
    have hl1 : ((List.range' 1 4294967295).map (fun i => (i, [1])) ++ [(0, [0])]).length
        = (List.range' 1 4294967295).length + 1 := by
      rw [List.length_append, List.length_map, List.length_singleton]
    have hl2 : ((List.range' 1 4294967295).map
        (fun i => (i, payloadOf wrapArrivals i))).length = (List.range' 1 4294967295).length :=
      List.length_map _ _
    have hl3 : (List.range' 1 4294967295).length + 1 = (List.range' 1 4294967295).length :=
      hl1.symm.trans (hl.trans hl2)
    generalize (List.range' 1 4294967295).length = n at hl3
    omega

end Gota
